import Mathlib

/-!
# ImageTools — verification of the operation/version history engine

A shallow embedding of the history engine of the ImageTools backend
(`backend/app/services/history_service.py`, `backend/app/services/image_service.py`).

Modelling conventions:

* The database slice relevant to one image is a pair of the `images` row
  (`Image`) and the list of `history` rows for that image (`St.tbl`, in
  insertion order; SQL queries sort it).
* The filesystem is an association list from path to `FileInfo` (width,
  height, format, byte size).  `PILImage.open` becomes a lookup that fails
  (raises) on a missing path; `img.save` / writing a file becomes `fsSet`;
  `os.remove` becomes `fsRemove`; `os.path.exists` is `(fsLookup …).isSome`.
  Artefacts produced at upload time are EXIF-orientation-normalised, so
  `ImageOps.exif_transpose` is the identity on stored artefacts and
  `FileInfo.width/height` are the actual pixel dimensions PIL reports.
* Thumbnails live in a separate store `St.thumbs`: thumbnail files are named
  `{image_id}_thumb{ext}` while artefacts are named
  `{image_id}_original{ext}` / `{image_id}_{op}_{uuid}{ext}`, so the two
  name spaces never collide.  The thumbnail content transformation done by
  PIL is abstracted as `Env.mkThumb`.
* External nondeterminism (fresh UUID file names, fresh UUID row ids, the
  byte size the encoder produces) is passed in as explicit parameters.
* Python `raise ValueError(...)` becomes returning `.error e` together with
  the state as it is visible to later requests at that point (SQLAlchemy
  changes that were not yet committed are rolled back when the session
  closes).
* `History.sequence` is a positive integer in every state the service
  creates (`_get_next_sequence` starts at 1), modelled as `Nat`.
-/

set_option autoImplicit false

namespace ImageTools

/-- Metadata of one on-disk image file, as PIL reports it:
pixel width/height, the detected format, and the byte size
(`os.path.getsize`). -/
structure FileInfo where
  width : Nat
  height : Nat
  format : String
  size : Nat
  deriving Repr, DecidableEq

/-- The filesystem (one directory of artefact files): path ↦ file. -/
abbrev FS := List (String × FileInfo)

/-- `os.path.exists` / `PILImage.open`: find the file stored at `p`. -/
def fsLookup : FS → String → Option FileInfo
  | [], _ => none
  | (q, fi) :: rest, p => if q = p then some fi else fsLookup rest p

/-- Writing (or overwriting) the file at `p`. -/
def fsSet (fs : FS) (p : String) (fi : FileInfo) : FS :=
  (p, fi) :: fs

/-- `os.remove p`. -/
def fsRemove (fs : FS) (p : String) : FS :=
  fs.filter (fun e => e.1 != p)

/-- The `images` row for one image (`models.Image`).  Fields that the
history engine never reads or writes (session id, original filename, EXIF
blob, GPS triple, timestamps) are omitted. -/
structure Image where
  id : String
  original_size : Nat
  current_path : String
  thumbnail_path : Option String
  current_size : Nat
  width : Nat
  height : Nat
  format : String
  deriving Repr, DecidableEq

/-- One `history` row (`models.History`); `created_at` is omitted. -/
structure History where
  id : String
  image_id : String
  operation_type : String
  operation_params : String
  input_path : String
  output_path : String
  file_size : Nat
  sequence : Nat
  deriving Repr, DecidableEq

/-- The state one image's requests act on: its `images` row, its `history`
rows (in insertion order), the artefact files and the thumbnail files. -/
structure St where
  image : Image
  tbl : List History
  fs : FS
  thumbs : FS
  deriving Repr, DecidableEq

/-- Process configuration (`app.core.config.settings`) together with the
abstracted thumbnail content transformation of `_create_thumbnail`. -/
structure Env where
  storagePath : String
  undoLimit : Nat
  mkThumb : FileInfo → FileInfo

/-- The `ValueError`s the history engine raises, plus the open failure PIL
raises on a missing file. -/
inductive Err where
  | noHistory
  | currentNotFound
  | previousNotFound
  | seqNotFound
  | fileMissing
  | openFailed
  | invalidArgument
  deriving Repr, DecidableEq

instance {ε α : Type} [DecidableEq ε] [DecidableEq α] : DecidableEq (Except ε α)
  | .error a, .error b =>
    if h : a = b then .isTrue (congrArg Except.error h)
    else .isFalse fun hc => h (Except.error.inj hc)
  | .error _, .ok _ => .isFalse fun hc => Except.noConfusion hc
  | .ok _, .error _ => .isFalse fun hc => Except.noConfusion hc
  | .ok a, .ok b =>
    if h : a = b then .isTrue (congrArg Except.ok h)
    else .isFalse fun hc => h (Except.ok.inj hc)

/-- `a ≼ b` by sequence number: the `ORDER BY sequence ASC` relation. -/
def seqLE (a b : History) : Prop := a.sequence ≤ b.sequence

instance : DecidableRel seqLE := fun a b => Nat.decLe a.sequence b.sequence

instance : IsTotal History seqLE := ⟨fun a b => Nat.le_total a.sequence b.sequence⟩

instance : IsTrans History seqLE := ⟨fun _ _ _ h₁ h₂ => Nat.le_trans h₁ h₂⟩

/-- The `ORDER BY sequence DESC` relation. -/
def seqGE (a b : History) : Prop := b.sequence ≤ a.sequence

instance : DecidableRel seqGE := fun a b => Nat.decLe b.sequence a.sequence

instance : IsTotal History seqGE := ⟨fun a b => Nat.le_total b.sequence a.sequence⟩

instance : IsTrans History seqGE := ⟨fun _ _ _ h₁ h₂ => Nat.le_trans h₂ h₁⟩

/-- `HistoryService.get_image_history`: the image's history rows ordered by
ascending sequence. -/
def get_image_history (tbl : List History) : List History :=
  List.insertionSort seqLE tbl

/-- `ImageService._get_next_sequence`: the rows ordered by descending
sequence; the first one's sequence plus 1, or 1 if there are none. -/
def next_sequence (tbl : List History) : Nat :=
  match (List.insertionSort seqGE tbl).head? with
  | some last_entry => last_entry.sequence + 1
  | none => 1

/-- The characters after the last `'.'` of the list, if there is one. -/
def suffixAfterDot : List Char → Option (List Char)
  | [] => none
  | c :: rest =>
    match suffixAfterDot rest with
    | some ext => some ext
    | none => if c = '.' then some rest else none

/-- `Path(p).suffix` / `os.path.splitext(p)[1]`: the final extension
(including the dot), or `""` when there is none. -/
def pathSuffix (p : String) : String :=
  match suffixAfterDot p.data with
  | some ext => "." ++ String.mk ext
  | none => ""

/-- The deterministic thumbnail name `{image_id}_thumb{ext}` inside the
storage directory. -/
def thumbnailPath (env : Env) (imageId ext : String) : String :=
  env.storagePath ++ "/" ++ imageId ++ "_thumb" ++ ext

/-- `HistoryService.can_undo` (the image row itself is given, so the
image-not-found early `False` does not arise).  True iff history is
non-empty and some history row's `output_path` equals the image's
`current_path`. -/
def can_undo (s : St) : Bool :=
  let history := get_image_history s.tbl
  if history.isEmpty then false
  else history.any (fun entry => entry.output_path == s.image.current_path)

/-- The conditional artefact deletion of `undo_operation` (lines 76–90):
delete `cur.output_path` only if it exists, no other history row (by id)
references it as `input_path` or `output_path`, and it is not the image's
(already updated) `current_path`. -/
def undoFsUpdate (fs : FS) (history : List History) (cur : History)
    (newCurrent : String) : FS :=
  if (fsLookup fs cur.output_path).isSome then
    let other_uses := history.any (fun entry =>
      entry.id != cur.id &&
      (entry.input_path == cur.output_path || entry.output_path == cur.output_path))
    if !other_uses && cur.output_path != newCurrent then
      fsRemove fs cur.output_path
    else fs
  else fs

/-- Lines 44–61 of `undo_operation`: the revert target.  If the matched
entry has sequence 1 the target is the first record's `input_path` together
with the image's immutable `original_size`; otherwise it is the
`output_path`/`file_size` of the record with the preceding sequence. -/
def undoRevert (s : St) (history : List History) (current_entry : History) :
    Except Err (String × Nat) :=
  if current_entry.sequence = 1 then
    match history.head? with
    | some first_entry => .ok (first_entry.input_path, s.image.original_size)
    | none => .error .noHistory
  else
    match history.find? (fun entry => entry.sequence == current_entry.sequence - 1) with
    | some previous_entry => .ok (previous_entry.output_path, previous_entry.file_size)
    | none => .error .previousNotFound

/-- `HistoryService.undo_operation`.  Returns the state as later requests
see it, and either the `(revert_path, sequence - 1)` result or the raised
error. -/
def undo_operation (env : Env) (s : St) : St × Except Err (String × Nat) :=
  let history := get_image_history s.tbl
  if history.isEmpty then (s, .error .noHistory)
  else
    match history.find? (fun entry => entry.output_path == s.image.current_path) with
    | none => (s, .error .currentNotFound)
    | some current_entry =>
      match undoRevert s history current_entry with
      | .error e => (s, .error e)
      | .ok (revert_path, revert_size) =>
        match fsLookup s.fs revert_path with
        | none => (s, .error .openFailed)
        | some rfi =>
          let image1 : Image :=
            { s.image with
              current_path := revert_path
              current_size := revert_size
              width := rfi.width
              height := rfi.height }
          let tbl1 := s.tbl.filter (fun row => row.id != current_entry.id)
          let fs1 := undoFsUpdate s.fs history current_entry image1.current_path
          -- first commit (line 92) has happened here
          let tpath := thumbnailPath env s.image.id (pathSuffix image1.current_path)
          match fsLookup fs1 image1.current_path with
          | none =>
            ({ image := image1, tbl := tbl1, fs := fs1, thumbs := s.thumbs },
             .error .openFailed)
          | some cfi =>
            ({ image := { image1 with thumbnail_path := some tpath }
               tbl := tbl1
               fs := fs1
               thumbs := fsSet s.thumbs tpath (env.mkThumb cfi) },
             .ok (revert_path, current_entry.sequence - 1))

/-- Deleting the stale thumbnail before regenerating it (`restore` lines
168–169, `rotate` lines 349–350): remove the old thumbnail file if the
image has one and it exists. -/
def staleThumbRemove (thumbs : FS) (tp? : Option String) : FS :=
  match tp? with
  | some tp => if (fsLookup thumbs tp).isSome then fsRemove thumbs tp else thumbs
  | none => thumbs

/-- `HistoryService.restore_to_sequence`. -/
def restore_to_sequence (env : Env) (s : St) (sequence : Nat) :
    St × Except Err (String × Nat) :=
  let history := get_image_history s.tbl
  if history.isEmpty then (s, .error .noHistory)
  else
    match history.find? (fun entry => entry.sequence == sequence) with
    | none => (s, .error .seqNotFound)
    | some target_entry =>
      let restore_path := target_entry.output_path
      let restore_size := target_entry.file_size
      match fsLookup s.fs restore_path with
      | none => (s, .error .fileMissing)
      | some rfi =>
        let image1 : Image :=
          { s.image with
            current_path := restore_path
            current_size := restore_size
            width := rfi.width
            height := rfi.height
            format := rfi.format }
        let thumbs1 := staleThumbRemove s.thumbs s.image.thumbnail_path
        let tpath := thumbnailPath env s.image.id (pathSuffix restore_path)
        let thumbs2 := fsSet thumbs1 tpath (env.mkThumb rfi)
        ({ image := { image1 with thumbnail_path := some tpath }
           tbl := s.tbl
           fs := s.fs
           thumbs := thumbs2 },
         .ok (restore_path, restore_size))

/-- The loop body of `cleanup_old_history` (lines 192–198): delete the
entry's output file if it exists, then delete the database row. -/
def cleanupStep (st : St) (entry : History) : St :=
  let fs1 :=
    if (fsLookup st.fs entry.output_path).isSome then fsRemove st.fs entry.output_path
    else st.fs
  { st with fs := fs1, tbl := st.tbl.filter (fun row => row.id != entry.id) }

/-- `HistoryService.cleanup_old_history`: drop the rows before the last
`undoLimit` ones (Python `history[:-limit]`, which is empty when the limit
is 0), removing each one's output file from disk when it exists. -/
def cleanup_old_history (env : Env) (s : St) : St :=
  let history := get_image_history s.tbl
  if history.length ≤ env.undoLimit then s
  else
    let entries_to_remove :=
      if env.undoLimit = 0 then [] else history.take (history.length - env.undoLimit)
    entries_to_remove.foldl cleanupStep s

/-- The records Python's `history[:-limit]` selects when the guard has
passed: all but the last `undoLimit` ones, oldest first. -/
def trimmedRecords (env : Env) (s : St) : List History :=
  (get_image_history s.tbl).take ((get_image_history s.tbl).length - env.undoLimit)

/-- `ImageService.rotate_image`.  The fresh UUID parts (`entry_id` for the
history row, `output_path` for the artefact) and the byte size the encoder
produces (`new_size`, which `os.path.getsize` then reads back) are passed
in.  `img.rotate(-degrees, expand=True)` swaps width and height for 90°
and 270° and keeps them for 180°. -/
def rotate_image (env : Env) (s : St) (degrees : Nat)
    (entry_id output_path : String) (new_size : Nat) :
    St × Except Err (String × Nat × Nat × Nat) :=
  if degrees = 90 ∨ degrees = 180 ∨ degrees = 270 then
    match fsLookup s.fs s.image.current_path with
    | none => (s, .error .openFailed)
    | some src =>
      let new_width := if degrees = 180 then src.width else src.height
      let new_height := if degrees = 180 then src.height else src.width
      let out_fi : FileInfo :=
        { width := new_width, height := new_height, format := src.format, size := new_size }
      let fs1 := fsSet s.fs output_path out_fi
      let history_entry : History :=
        { id := entry_id
          image_id := s.image.id
          operation_type := "rotate"
          operation_params := "\x7b\"degrees\": " ++ toString degrees ++ "\x7d"
          input_path := s.image.current_path
          output_path := output_path
          file_size := new_size
          sequence := next_sequence s.tbl }
      let tbl1 := s.tbl ++ [history_entry]
      let image1 : Image :=
        { s.image with
          current_path := output_path
          current_size := new_size
          width := new_width
          height := new_height }
      -- commit (line 345) has happened here
      let thumbs1 := staleThumbRemove s.thumbs image1.thumbnail_path
      let tpath := thumbnailPath env s.image.id (pathSuffix s.image.current_path)
      match fsLookup fs1 output_path with
      | none =>
        ({ image := image1, tbl := tbl1, fs := fs1, thumbs := thumbs1 }, .error .openFailed)
      | some ofi =>
        ({ image := { image1 with thumbnail_path := some tpath }
           tbl := tbl1
           fs := fs1
           thumbs := fsSet thumbs1 tpath (env.mkThumb ofi) },
         .ok (output_path, new_size, new_width, new_height))
  else (s, .error .invalidArgument)

/-- Parameters of one forward `rotate_image` call: the requested degrees
plus the external fresh names and encoder output size. -/
structure RotParams where
  degrees : Nat
  entry_id : String
  output_path : String
  new_size : Nat
  deriving Repr, DecidableEq

/-- Run a list of forward operations; `some s` means every one of them
succeeded. -/
def runRotates (env : Env) : List RotParams → St → Option St
  | [], s => some s
  | op :: rest, s =>
    match rotate_image env s op.degrees op.entry_id op.output_path op.new_size with
    | (s', .ok _) => runRotates env rest s'
    | (_, .error _) => none

/-- The maximum sequence number among the rows (0 when there are none):
the spec's "max(existing sequences for image_id)". -/
def maxSeq (tbl : List History) : Nat :=
  tbl.foldr (fun entry m => max entry.sequence m) 0

/-- The spec's sequence-contiguity property: the history, read back in
order, carries sequences 1, 2, …, length. -/
def contiguous (tbl : List History) : Prop :=
  (get_image_history tbl).map History.sequence = List.range' 1 tbl.length

instance (tbl : List History) : Decidable (contiguous tbl) := by
  unfold contiguous; infer_instance

/-! ## Concrete states used to witness the theorems -/

/-- A concrete environment: default configuration, identity thumbnailer. -/
def exEnv : Env :=
  { storagePath := "storage", undoLimit := 10, mkThumb := fun fi => fi }

def c1Fi0 : FileInfo := { width := 100, height := 50, format := "JPEG", size := 1000 }

def c1FiA : FileInfo := { width := 50, height := 100, format := "JPEG", size := 900 }

def c1FiB : FileInfo := { width := 100, height := 50, format := "JPEG", size := 800 }

def c1E1 : History :=
  { id := "h1", image_id := "img1", operation_type := "rotate", operation_params := "d90"
    input_path := "orig.jpg", output_path := "a1.jpg", file_size := 900, sequence := 1 }

def c1E2 : History :=
  { id := "h2", image_id := "img1", operation_type := "rotate", operation_params := "d90"
    input_path := "a1.jpg", output_path := "b2.jpg", file_size := 800, sequence := 2 }

/-- An image with two history records whose current state is the tail. -/
def c1St : St :=
  { image :=
      { id := "img1", original_size := 1000, current_path := "b2.jpg"
        thumbnail_path := some "storage/img1_thumb.jpg", current_size := 800
        width := 100, height := 50, format := "JPEG" }
    tbl := [c1E1, c1E2]
    fs := [("orig.jpg", c1Fi0), ("a1.jpg", c1FiA), ("b2.jpg", c1FiB)]
    thumbs := [("storage/img1_thumb.jpg", c1FiB)] }

/-- `c1St` after `restore_to_sequence 1`: current is a non-tail output. -/
def c1Restored : St := (restore_to_sequence exEnv c1St 1).1

/-- `c1St` after one undo (used for the no-orphan-deletion witness). -/
def c6Undone : St := (undo_operation exEnv c1St).1

/-- `c1Restored` after a fresh forward operation (restore-then-append). -/
def c4Rot2 : St := (rotate_image exEnv c1Restored 90 "h3" "d3.jpg" 600).1

/-- `c1Restored` after an undo: undoes the matched *non-tail* record. -/
def c10Undone : St := (undo_operation exEnv c1Restored).1

def c8Fi0 : FileInfo := { width := 100, height := 50, format := "PNG", size := 1200 }

def c8FiC : FileInfo := { width := 100, height := 50, format := "WEBP", size := 700 }

def c8E1 : History :=
  { id := "h1", image_id := "img2", operation_type := "convert", operation_params := "webp"
    input_path := "orig2.png", output_path := "c1.webp", file_size := 700, sequence := 1 }

/-- An image whose single operation changed the file format. -/
def c8St : St :=
  { image :=
      { id := "img2", original_size := 1200, current_path := "c1.webp"
        thumbnail_path := none, current_size := 700
        width := 100, height := 50, format := "WEBP" }
    tbl := [c8E1]
    fs := [("orig2.png", c8Fi0), ("c1.webp", c8FiC)]
    thumbs := [] }

/-- `c8St` after the undo. -/
def c8Undone : St := (undo_operation exEnv c8St).1

/-- Environment with a retention cap of 1, for the trimmer claims. -/
def cap1Env : Env :=
  { storagePath := "storage", undoLimit := 1, mkThumb := fun fi => fi }

/-- `c1Restored` trimmed with cap 1: the trimmer removes the record whose
output is the current path and deletes its file. -/
def c5Trimmed : St := cleanup_old_history cap1Env c1Restored

/-- A freshly uploaded image with no history yet. -/
def c7S0 : St :=
  { image :=
      { id := "img7", original_size := 500, current_path := "u0.png"
        thumbnail_path := none, current_size := 500
        width := 20, height := 10, format := "PNG" }
    tbl := []
    fs := [("u0.png", { width := 20, height := 10, format := "PNG", size := 500 })]
    thumbs := [] }

/-- Two forward operations on `c7S0`. -/
def c7Ops : List RotParams :=
  [{ degrees := 90, entry_id := "k1", output_path := "u1.png", new_size := 400 },
   { degrees := 180, entry_id := "k2", output_path := "u2.png", new_size := 300 }]

/-- The state after running `c7Ops` on `c7S0`. -/
def c7St : St := (runRotates exEnv c7Ops c7S0).getD c7S0

/-- The original upload artefact of `c7S0`. -/
def c3Fi0 : FileInfo := { width := 20, height := 10, format := "PNG", size := 500 }

/-- `c7S0` after one rotation (the undo-reverses-forward scenario). -/
def c3S1 : St := (rotate_image exEnv c7S0 90 "m1" "v1.png" 450).1

/-- `c3S1` after a second rotation. -/
def c3S2 : St := (rotate_image exEnv c3S1 90 "m2" "v2.png" 420).1

/-- `c3S2` after a third rotation (the undo-chain scenario start). -/
def c3S3 : St := (rotate_image exEnv c3S2 180 "m3" "v3.png" 410).1

/-! ## Filesystem lemmas -/

@[simp]
theorem fsLookup_set_self (fs : FS) (p : String) (fi : FileInfo) :
    fsLookup (fsSet fs p fi) p = some fi := by
  simp [fsSet, fsLookup]

theorem fsLookup_set_ne (fs : FS) {p q : String} (fi : FileInfo) (h : p ≠ q) :
    fsLookup (fsSet fs p fi) q = fsLookup fs q := by
  simp [fsSet, fsLookup, h]

@[simp]
theorem fsLookup_remove_self (fs : FS) (p : String) :
    fsLookup (fsRemove fs p) p = none := by
  induction fs with
  | nil => rfl
  | cons e rest ih =>
    by_cases h : e.1 = p
    · simpa [fsRemove, h] using ih
    · simpa [fsRemove, fsLookup, h] using ih

theorem fsLookup_remove_ne (fs : FS) {p q : String} (h : p ≠ q) :
    fsLookup (fsRemove fs p) q = fsLookup fs q := by
  induction fs with
  | nil => rfl
  | cons e rest ih =>
    simp only [fsRemove, List.filter] at ih ⊢
    by_cases he : e.1 = p
    · have h1 : (e.1 != p) = false := by simp [he]
      have h2 : e.1 ≠ q := he ▸ h
      simp [h1, fsLookup, h2, ih]
    · have h1 : (e.1 != p) = true := by simpa using he
      by_cases heq : e.1 = q
      · have h2 : (q != p) = true := by simpa using Ne.symm h
        simp [h1, fsLookup, heq, h2]
      · simp [h1, fsLookup, heq, ih]

theorem fsLookup_remove_none (fs : FS) {p q : String}
    (h : fsLookup fs q = none) : fsLookup (fsRemove fs p) q = none := by
  by_cases hpq : p = q
  · subst hpq; simp
  · rw [fsLookup_remove_ne fs hpq]; exact h

/-! ## Sorting / history-order lemmas -/

theorem get_image_history_perm (tbl : List History) :
    (get_image_history tbl).Perm tbl :=
  List.perm_insertionSort seqLE tbl

theorem mem_get_image_history {tbl : List History} {a : History} :
    a ∈ get_image_history tbl ↔ a ∈ tbl :=
  (get_image_history_perm tbl).mem_iff

theorem get_image_history_sorted (tbl : List History) :
    List.Sorted seqLE (get_image_history tbl) :=
  List.sorted_insertionSort seqLE tbl

theorem get_image_history_nil : get_image_history [] = [] := rfl

theorem get_image_history_isEmpty_eq_false {tbl : List History} (h : tbl ≠ []) :
    (get_image_history tbl).isEmpty = false := by
  cases hl : get_image_history tbl with
  | nil =>
    have hperm := (get_image_history_perm tbl).symm
    rw [hl] at hperm
    exact absurd hperm.eq_nil h
  | cons a t => rfl

theorem get_image_history_eq_nil_iff {tbl : List History} :
    get_image_history tbl = [] ↔ tbl = [] := by
  constructor
  · intro h
    have := get_image_history_perm tbl
    rw [h] at this
    exact this.symm.eq_nil
  · intro h; subst h; rfl

theorem orderedInsert_append_single (a e : History) (l : List History)
    (hae : seqLE a e) :
    List.orderedInsert seqLE a (l ++ [e]) = List.orderedInsert seqLE a l ++ [e] := by
  induction l with
  | nil => simp [List.orderedInsert, hae]
  | cons b t ih =>
    by_cases hab : seqLE a b
    · simp [List.orderedInsert, hab]
    · simp [List.orderedInsert, hab, ih]

theorem get_image_history_append_max (tbl : List History) (e : History)
    (h : ∀ x ∈ tbl, x.sequence ≤ e.sequence) :
    get_image_history (tbl ++ [e]) = get_image_history tbl ++ [e] := by
  induction tbl with
  | nil => rfl
  | cons a t ih =>
    have ha : seqLE a e := h a (by simp)
    have ht : ∀ x ∈ t, x.sequence ≤ e.sequence := fun x hx => h x (by simp [hx])
    have ih' := ih ht
    simp only [get_image_history, List.cons_append, List.insertionSort,
      List.append_eq] at ih' ⊢
    rw [ih', orderedInsert_append_single a e _ ha]

/-! ## maxSeq and next_sequence -/

theorem le_maxSeq {tbl : List History} {x : History} (hx : x ∈ tbl) :
    x.sequence ≤ maxSeq tbl := by
  induction tbl with
  | nil => cases hx
  | cons a t ih =>
    rcases List.mem_cons.mp hx with h | h
    · subst h; exact Nat.le_max_left _ _
    · exact Nat.le_trans (ih h) (Nat.le_max_right _ _)

theorem maxSeq_le {tbl : List History} {m : Nat}
    (h : ∀ x ∈ tbl, x.sequence ≤ m) : maxSeq tbl ≤ m := by
  induction tbl with
  | nil => exact Nat.zero_le m
  | cons a t ih =>
    have ha := h a (by simp)
    have ht := ih (fun x hx => h x (by simp [hx]))
    exact Nat.max_le.mpr ⟨ha, ht⟩

theorem maxSeq_perm {tbl tbl' : List History} (h : tbl.Perm tbl') :
    maxSeq tbl = maxSeq tbl' :=
  Nat.le_antisymm
    (maxSeq_le fun _ hx => le_maxSeq (h.mem_iff.mp hx))
    (maxSeq_le fun _ hx => le_maxSeq (h.mem_iff.mpr hx))

theorem next_sequence_nil : next_sequence [] = 1 := rfl

theorem next_sequence_eq_maxSeq {tbl : List History} (h : tbl ≠ []) :
    next_sequence tbl = maxSeq tbl + 1 := by
  have hperm : (List.insertionSort seqGE tbl).Perm tbl := List.perm_insertionSort seqGE tbl
  have hsorted : List.Sorted seqGE (List.insertionSort seqGE tbl) :=
    List.sorted_insertionSort seqGE tbl
  match hl : List.insertionSort seqGE tbl with
  | [] =>
    rw [hl] at hperm
    exact absurd hperm.symm.eq_nil h
  | hd :: tl =>
    rw [hl] at hperm hsorted
    have hhd : ∀ x ∈ tl, x.sequence ≤ hd.sequence := by
      intro x hx
      exact (List.sorted_cons.mp hsorted).1 x hx
    have hmax : maxSeq tbl = hd.sequence := by
      rw [maxSeq_perm hperm.symm]
      refine Nat.le_antisymm (maxSeq_le ?_) (le_maxSeq (by simp))
      intro x hx
      rcases List.mem_cons.mp hx with h | h
      · subst h; exact Nat.le_refl _
      · exact hhd x h
    simp [next_sequence, hl, hmax]

theorem maxSeq_append_single (tbl : List History) (e : History) :
    maxSeq (tbl ++ [e]) = max (maxSeq tbl) e.sequence := by
  refine Nat.le_antisymm (maxSeq_le ?_) (Nat.max_le.mpr ⟨maxSeq_le ?_, le_maxSeq ?_⟩)
  · intro x hx
    rcases List.mem_append.mp hx with h | h
    · exact Nat.le_trans (le_maxSeq h) (Nat.le_max_left _ _)
    · rcases List.mem_singleton.mp h with rfl
      exact Nat.le_max_right _ _
  · intro _ hx
    exact le_maxSeq (List.mem_append.mpr (Or.inl hx))
  · exact List.mem_append.mpr (Or.inr (by simp))

/-! ## find? uniqueness -/

theorem find_eq_of_map_nodup {α β : Type} [DecidableEq β] (f : α → β)
    (l : List α) (a : α) (ha : a ∈ l) (hnd : (l.map f).Nodup) :
    l.find? (fun x => f x == f a) = some a := by
  induction l with
  | nil => cases ha
  | cons b t ih =>
    rcases List.mem_cons.mp ha with h | h
    · subst h
      simp [List.find?]
    · have hnd' := hnd
      rw [List.map_cons, List.nodup_cons] at hnd'
      have hfb : f b ≠ f a := by
        intro hEq
        exact hnd'.1 (hEq ▸ List.mem_map_of_mem f h)
      have : (f b == f a) = false := beq_eq_false_iff_ne.mpr hfb
      simp only [List.find?, this]
      exact ih h hnd'.2

/-! ## Characterisation of the operations -/

theorem undoFsUpdate_lookup (fs : FS) (history : List History) (cur : History)
    (p : String) :
    fsLookup (undoFsUpdate fs history cur p) p = fsLookup fs p := by
  unfold undoFsUpdate
  split
  · dsimp only
    split
    · rename_i hcond
      have hne : cur.output_path ≠ p := by
        have := (Bool.and_eq_true _ _).mp hcond
        simpa using this.2
      exact fsLookup_remove_ne fs hne
    · rfl
  · rfl

theorem undoFsUpdate_lookup_ne (fs : FS) (history : List History)
    (cur : History) (p : String) {q : String} (h : cur.output_path ≠ q) :
    fsLookup (undoFsUpdate fs history cur p) q = fsLookup fs q := by
  unfold undoFsUpdate
  split
  · dsimp only
    split
    · exact fsLookup_remove_ne fs h
    · rfl
  · rfl

theorem undo_operation_ok (env : Env) (s : St) (cur : History)
    (revert_path : String) (revert_size : Nat) (rfi : FileInfo)
    (hfind : (get_image_history s.tbl).find?
      (fun entry => entry.output_path == s.image.current_path) = some cur)
    (hrev : undoRevert s (get_image_history s.tbl) cur = .ok (revert_path, revert_size))
    (hopen : fsLookup s.fs revert_path = some rfi) :
    undo_operation env s =
      ({ image := { s.image with
            current_path := revert_path
            current_size := revert_size
            width := rfi.width
            height := rfi.height
            thumbnail_path := some (thumbnailPath env s.image.id (pathSuffix revert_path)) }
         tbl := s.tbl.filter (fun row => row.id != cur.id)
         fs := undoFsUpdate s.fs (get_image_history s.tbl) cur revert_path
         thumbs := fsSet s.thumbs
           (thumbnailPath env s.image.id (pathSuffix revert_path)) (env.mkThumb rfi) },
       .ok (revert_path, cur.sequence - 1)) := by
  have hmem : cur ∈ get_image_history s.tbl := List.mem_of_find?_eq_some hfind
  have hne : (get_image_history s.tbl).isEmpty = false := by
    cases hh : get_image_history s.tbl with
    | nil => rw [hh] at hmem; cases hmem
    | cons a t => rfl
  have hlook2 : fsLookup (undoFsUpdate s.fs (get_image_history s.tbl) cur revert_path)
      revert_path = some rfi := by
    rw [undoFsUpdate_lookup]; exact hopen
  simp only [undo_operation, hne, Bool.false_eq_true, if_false, hfind, hrev, hopen, hlook2]

theorem undo_operation_eq_ok {env : Env} {s s' : St} {p : String} {n : Nat}
    (h : undo_operation env s = (s', .ok (p, n))) :
    ∃ cur revert_size rfi,
      (get_image_history s.tbl).find?
        (fun entry => entry.output_path == s.image.current_path) = some cur ∧
      undoRevert s (get_image_history s.tbl) cur = .ok (p, revert_size) ∧
      fsLookup s.fs p = some rfi ∧
      s'.image = { s.image with
        current_path := p
        current_size := revert_size
        width := rfi.width
        height := rfi.height
        thumbnail_path := some (thumbnailPath env s.image.id (pathSuffix p)) } ∧
      s'.tbl = s.tbl.filter (fun row => row.id != cur.id) ∧
      s'.fs = undoFsUpdate s.fs (get_image_history s.tbl) cur p ∧
      n = cur.sequence - 1 := by
  by_cases hne : (get_image_history s.tbl).isEmpty = true
  · simp [undo_operation, hne] at h
  · rw [Bool.not_eq_true] at hne
    cases hfind : (get_image_history s.tbl).find?
        (fun entry => entry.output_path == s.image.current_path) with
    | none => simp [undo_operation, hne, hfind] at h
    | some cur =>
      cases hrev : undoRevert s (get_image_history s.tbl) cur with
      | error e => simp [undo_operation, hne, hfind, hrev] at h
      | ok rv =>
        obtain ⟨revert_path, revert_size⟩ := rv
        cases hopen : fsLookup s.fs revert_path with
        | none => simp [undo_operation, hne, hfind, hrev, hopen] at h
        | some rfi =>
          rw [undo_operation_ok env s cur revert_path revert_size rfi hfind hrev hopen] at h
          rw [Prod.mk.injEq] at h
          obtain ⟨hs, hr⟩ := h
          rw [Except.ok.injEq, Prod.mk.injEq] at hr
          obtain ⟨hrp, hn⟩ := hr
          subst hrp
          subst hs
          exact ⟨cur, revert_size, rfi, rfl, hrev, hopen, rfl, rfl, rfl, hn.symm⟩

theorem rotate_image_ok (env : Env) (s : St) (degrees : Nat)
    (entry_id output_path : String) (new_size : Nat) (src : FileInfo)
    (hdeg : degrees = 90 ∨ degrees = 180 ∨ degrees = 270)
    (hsrc : fsLookup s.fs s.image.current_path = some src) :
    rotate_image env s degrees entry_id output_path new_size =
      (let new_width := if degrees = 180 then src.width else src.height
       let new_height := if degrees = 180 then src.height else src.width
       let out_fi : FileInfo :=
         { width := new_width, height := new_height, format := src.format, size := new_size }
       let history_entry : History :=
         { id := entry_id
           image_id := s.image.id
           operation_type := "rotate"
           operation_params := "\x7b\"degrees\": " ++ toString degrees ++ "\x7d"
           input_path := s.image.current_path
           output_path := output_path
           file_size := new_size
           sequence := next_sequence s.tbl }
       let tpath := thumbnailPath env s.image.id (pathSuffix s.image.current_path)
       ({ image := { s.image with
            current_path := output_path
            current_size := new_size
            width := new_width
            height := new_height
            thumbnail_path := some tpath }
          tbl := s.tbl ++ [history_entry]
          fs := fsSet s.fs output_path out_fi
          thumbs := fsSet (staleThumbRemove s.thumbs s.image.thumbnail_path) tpath
            (env.mkThumb out_fi) },
        .ok (output_path, new_size, new_width, new_height))) := by
  simp only [rotate_image, if_pos hdeg, hsrc, fsLookup_set_self]

theorem rotate_image_eq_ok {env : Env} {s : St} {degrees : Nat}
    {entry_id output_path : String} {new_size : Nat} {s' : St}
    {r : String × Nat × Nat × Nat}
    (h : rotate_image env s degrees entry_id output_path new_size = (s', .ok r)) :
    ∃ src : FileInfo,
      (degrees = 90 ∨ degrees = 180 ∨ degrees = 270) ∧
      fsLookup s.fs s.image.current_path = some src ∧
      ∃ e : History,
        s'.tbl = s.tbl ++ [e] ∧
        e.sequence = next_sequence s.tbl ∧
        e.id = entry_id ∧
        e.input_path = s.image.current_path ∧
        e.output_path = output_path ∧
        e.file_size = new_size ∧
        s'.image.current_path = output_path ∧
        s'.image.current_size = new_size ∧
        s'.image.format = s.image.format ∧
        s'.image.original_size = s.image.original_size ∧
        s'.fs = fsSet s.fs output_path
          { width := s'.image.width, height := s'.image.height,
            format := src.format, size := new_size } := by
  by_cases hdeg : degrees = 90 ∨ degrees = 180 ∨ degrees = 270
  · cases hsrc : fsLookup s.fs s.image.current_path with
    | none => simp [rotate_image, if_pos hdeg, hsrc] at h
    | some src =>
      rw [rotate_image_ok env s degrees entry_id output_path new_size src hdeg hsrc] at h
      simp only at h
      rw [Prod.mk.injEq] at h
      obtain ⟨hs, _⟩ := h
      subst hs
      exact ⟨src, hdeg, rfl, _, rfl, rfl, rfl, rfl, rfl, rfl, rfl, rfl, rfl, rfl, rfl⟩
  · simp [rotate_image, if_neg hdeg] at h

theorem restore_eq_ok {env : Env} {s : St} {q : Nat} {s' : St} {r : String × Nat}
    (h : restore_to_sequence env s q = (s', .ok r)) :
    ∃ target rfi,
      (get_image_history s.tbl).find? (fun entry => entry.sequence == q) = some target ∧
      fsLookup s.fs target.output_path = some rfi ∧
      s'.tbl = s.tbl ∧
      s'.fs = s.fs ∧
      r = (target.output_path, target.file_size) ∧
      s'.image = { s.image with
        current_path := target.output_path
        current_size := target.file_size
        width := rfi.width
        height := rfi.height
        format := rfi.format
        thumbnail_path :=
          some (thumbnailPath env s.image.id (pathSuffix target.output_path)) } := by
  by_cases hne : (get_image_history s.tbl).isEmpty = true
  · simp [restore_to_sequence, hne] at h
  · rw [Bool.not_eq_true] at hne
    cases hfind : (get_image_history s.tbl).find? (fun entry => entry.sequence == q) with
    | none => simp [restore_to_sequence, hne, hfind] at h
    | some target =>
      cases hopen : fsLookup s.fs target.output_path with
      | none => simp [restore_to_sequence, hne, hfind, hopen] at h
      | some rfi =>
        simp only [restore_to_sequence, hne, Bool.false_eq_true, if_false, hfind,
          hopen] at h
        rw [Prod.mk.injEq] at h
        obtain ⟨hs, hr⟩ := h
        rw [Except.ok.injEq] at hr
        subst hs
        exact ⟨target, rfi, rfl, hopen, rfl, rfl, hr.symm, rfl⟩

theorem restore_eq_error {env : Env} {s : St} {q : Nat} {s' : St} {e : Err}
    (h : restore_to_sequence env s q = (s', .error e)) : s' = s := by
  by_cases hne : (get_image_history s.tbl).isEmpty = true
  · simp only [restore_to_sequence, hne, if_true] at h
    rw [Prod.mk.injEq] at h
    exact h.1.symm
  · rw [Bool.not_eq_true] at hne
    cases hfind : (get_image_history s.tbl).find? (fun entry => entry.sequence == q) with
    | none =>
      simp only [restore_to_sequence, hne, Bool.false_eq_true, if_false, hfind] at h
      rw [Prod.mk.injEq] at h
      exact h.1.symm
    | some target =>
      cases hopen : fsLookup s.fs target.output_path with
      | none =>
        simp only [restore_to_sequence, hne, Bool.false_eq_true, if_false, hfind,
          hopen] at h
        rw [Prod.mk.injEq] at h
        exact h.1.symm
      | some rfi =>
        simp only [restore_to_sequence, hne, Bool.false_eq_true, if_false, hfind,
          hopen] at h
        rw [Prod.mk.injEq] at h
        exact absurd h.2 (by simp)

/-! ## Cleanup fold lemmas -/

theorem cleanupStep_image (st : St) (e : History) :
    (cleanupStep st e).image = st.image := rfl

theorem cleanupFold_image (l : List History) :
    ∀ st : St, (l.foldl cleanupStep st).image = st.image := by
  induction l with
  | nil => intro st; rfl
  | cons a t ih =>
    intro st
    rw [List.foldl_cons, ih (cleanupStep st a), cleanupStep_image]

theorem cleanupStep_fs_none (st : St) (e : History) {p : String}
    (h : fsLookup st.fs p = none) : fsLookup (cleanupStep st e).fs p = none := by
  unfold cleanupStep
  dsimp only
  split
  · exact fsLookup_remove_none st.fs h
  · exact h

theorem cleanupFold_fs_none (l : List History) :
    ∀ (st : St) (p : String), fsLookup st.fs p = none →
      fsLookup (l.foldl cleanupStep st).fs p = none := by
  induction l with
  | nil => intro st p h; exact h
  | cons a t ih =>
    intro st p h
    rw [List.foldl_cons]
    exact ih _ p (cleanupStep_fs_none st a h)

theorem cleanupStep_fs_self (st : St) (e : History) :
    fsLookup (cleanupStep st e).fs e.output_path = none := by
  unfold cleanupStep
  dsimp only
  split
  · exact fsLookup_remove_self _ _
  · rename_i h
    exact Option.not_isSome_iff_eq_none.mp h

theorem cleanupFold_fs_removed (l : List History) :
    ∀ (st : St) (e : History), e ∈ l →
      fsLookup (l.foldl cleanupStep st).fs e.output_path = none := by
  induction l with
  | nil => intro st e he; cases he
  | cons a t ih =>
    intro st e he
    rw [List.foldl_cons]
    rcases List.mem_cons.mp he with rfl | he'
    · exact cleanupFold_fs_none t _ _ (cleanupStep_fs_self st e)
    · exact ih _ e he'

theorem cleanupStep_tbl_mem (st : St) (e row : History) :
    row ∈ (cleanupStep st e).tbl ↔ (row ∈ st.tbl ∧ row.id ≠ e.id) := by
  unfold cleanupStep
  dsimp only
  rw [List.mem_filter]
  simp

theorem cleanupFold_tbl_mem (l : List History) :
    ∀ (st : St) (row : History),
      row ∈ (l.foldl cleanupStep st).tbl ↔
        (row ∈ st.tbl ∧ ∀ e ∈ l, row.id ≠ e.id) := by
  induction l with
  | nil => intro st row; simp
  | cons a t ih =>
    intro st row
    rw [List.foldl_cons, ih, cleanupStep_tbl_mem, List.forall_mem_cons]
    tauto

theorem can_undo_of_tbl_nil {s : St} (h : s.tbl = []) : can_undo s = false := by
  simp [can_undo, h, get_image_history]

theorem next_sequence_singleton (e : History) :
    next_sequence [e] = e.sequence + 1 := rfl

theorem next_sequence_pair_lt {a b : History} (h : a.sequence < b.sequence) :
    next_sequence [a, b] = b.sequence + 1 := by
  have hge : ¬ seqGE a b := by
    unfold seqGE
    omega
  simp [next_sequence, List.insertionSort, List.orderedInsert, hge]

theorem get_image_history_singleton (e : History) :
    get_image_history [e] = [e] := rfl

theorem mem_of_getLast?_eq_some {α : Type} {l : List α} {a : α}
    (h : l.getLast? = some a) : a ∈ l := by
  obtain ⟨hne, heq⟩ := List.mem_getLast?_eq_getLast (Option.mem_def.mpr h)
  rw [heq]
  exact List.getLast_mem hne

/-! ## Deleting a mid-log record breaks sequence contiguity -/

theorem mem_filter_ne_id {tbl : List History} {e : History}
    (hids : (tbl.map History.id).Nodup) (he : e ∈ tbl) (r : History) :
    r ∈ tbl.filter (fun row => row.id != e.id) ↔ (r ∈ tbl ∧ r ≠ e) := by
  rw [List.mem_filter]
  constructor
  · rintro ⟨h1, h2⟩
    refine ⟨h1, ?_⟩
    intro heq
    subst heq
    simp at h2
  · rintro ⟨h1, h2⟩
    refine ⟨h1, ?_⟩
    have hid : r.id ≠ e.id :=
      fun hid => h2 (List.inj_on_of_nodup_map hids h1 he hid)
    simpa using hid

theorem not_contiguous_after_midlog_delete {tbl : List History} {e : History}
    {n : Nat}
    (hmap : (get_image_history tbl).map History.sequence = List.range' 1 n)
    (hids : (tbl.map History.id).Nodup)
    (hseqs : (tbl.map History.sequence).Nodup)
    (he : e ∈ tbl) (hlt : e.sequence < n) :
    ¬ contiguous (tbl.filter (fun row => row.id != e.id)) := by
  have injseq := List.inj_on_of_nodup_map hseqs
  have he_seq_mem : e.sequence ∈ List.range' 1 n := by
    rw [← hmap]
    exact List.mem_map_of_mem History.sequence (mem_get_image_history.mpr he)
  have he1 : 1 ≤ e.sequence := (List.mem_range'_1.mp he_seq_mem).1
  have hs1mem : e.sequence + 1 ∈ List.range' 1 n :=
    List.mem_range'_1.mpr ⟨by omega, by omega⟩
  rw [← hmap] at hs1mem
  obtain ⟨r1, hr1mem, hr1seq⟩ := List.mem_map.mp hs1mem
  have hr1tbl : r1 ∈ tbl := mem_get_image_history.mp hr1mem
  have hr1ne : r1 ≠ e := by
    intro hre
    rw [hre] at hr1seq
    omega
  have hr1F : r1 ∈ tbl.filter (fun row => row.id != e.id) :=
    (mem_filter_ne_id hids he r1).mpr ⟨hr1tbl, hr1ne⟩
  intro hc
  unfold contiguous at hc
  have hmem1 : r1.sequence ∈
      (get_image_history (tbl.filter (fun row => row.id != e.id))).map
        History.sequence :=
    List.mem_map_of_mem History.sequence (mem_get_image_history.mpr hr1F)
  rw [hc] at hmem1
  have h2 := List.mem_range'_1.mp hmem1
  have hmem2 : e.sequence ∈
      List.range' 1 (tbl.filter (fun row => row.id != e.id)).length :=
    List.mem_range'_1.mpr ⟨he1, by omega⟩
  rw [← hc] at hmem2
  obtain ⟨r2, hr2mem, hr2seq⟩ := List.mem_map.mp hmem2
  have hr2F : r2 ∈ tbl.filter (fun row => row.id != e.id) :=
    mem_get_image_history.mp hr2mem
  obtain ⟨hr2tbl, hr2ne⟩ := (mem_filter_ne_id hids he r2).mp hr2F
  exact hr2ne (injseq hr2tbl he hr2seq)

/-! ## Claim theorems -/

/-- C1 (counterexample): after `restore_to_sequence` to the non-tail
sequence 1 with no further operations, the history is non-empty and the
image's `current_path` differs from the tail record's `output_path`, yet
`can_undo` returns `true` — the claimed "true iff current equals the
tail's output" is false on this state. -/
theorem C1_counterexample :
    restore_to_sequence exEnv c1St 1 = (c1Restored, .ok ("a1.jpg", 900)) ∧
    (get_image_history c1Restored.tbl).getLast? = some c1E2 ∧
    c1Restored.image.current_path ≠ c1E2.output_path ∧
    get_image_history c1Restored.tbl ≠ [] ∧
    can_undo c1Restored = true := by
  decide

/-- C1 (amended): `can_undo` returns `true` iff the history is non-empty
and the image's `current_path` equals the `output_path` of *some* history
record — not necessarily the tail.  In particular, after a restore to a
non-tail sequence `can_undo` still returns `true`. -/
theorem C1_can_undo_iff_some_record (s : St) :
    can_undo s = true ↔
      s.tbl ≠ [] ∧ ∃ e ∈ s.tbl, e.output_path = s.image.current_path := by
  simp only [can_undo]
  constructor
  · intro h
    by_cases hempty : (get_image_history s.tbl).isEmpty = true
    · rw [if_pos hempty] at h
      exact absurd h (by simp)
    · rw [if_neg hempty] at h
      obtain ⟨e, he, hbeq⟩ := List.any_eq_true.mp h
      have hg : get_image_history s.tbl ≠ [] := by
        intro hgone
        rw [hgone] at hempty
        exact hempty rfl
      exact ⟨fun h0 => hg (get_image_history_eq_nil_iff.mpr h0),
        e, mem_get_image_history.mp he, by simpa using hbeq⟩
  · rintro ⟨htbl, e, he, hout⟩
    have hempty : ¬ ((get_image_history s.tbl).isEmpty = true) := by
      rw [get_image_history_isEmpty_eq_false htbl]
      exact Bool.false_ne_true
    rw [if_neg hempty]
    exact List.any_eq_true.mpr ⟨e, mem_get_image_history.mpr he, by simpa using hout⟩

/-- C4: a successful `restore_to_sequence` adds, removes and modifies no
history record — the table and `get_image_history` are unchanged — and a
subsequent successful forward operation appends with sequence equal to the
old maximum plus 1, which is not `restored sequence + 1` when the restore
target was not the tail. -/
theorem C4_restore_nondestructive {env : Env} {s : St} {q : Nat} {s' : St}
    {r : String × Nat} (h : restore_to_sequence env s q = (s', .ok r)) :
    s'.tbl = s.tbl ∧
    get_image_history s'.tbl = get_image_history s.tbl ∧
    ∀ degrees entry_id output_path new_size s'' r',
      rotate_image env s' degrees entry_id output_path new_size = (s'', .ok r') →
      ∃ e, s''.tbl = s.tbl ++ [e] ∧
        e.sequence = maxSeq s.tbl + 1 ∧
        (∀ target ∈ s.tbl, target.sequence = q → q < maxSeq s.tbl →
          e.sequence ≠ q + 1) := by
  obtain ⟨target, rfi, hfind, hopen, htbl, hfs, hr, himg⟩ := restore_eq_ok h
  have hne : s.tbl ≠ [] := by
    have hmem : target ∈ get_image_history s.tbl := List.mem_of_find?_eq_some hfind
    intro h0
    have hg := get_image_history_eq_nil_iff.mpr h0
    rw [hg] at hmem
    cases hmem
  refine ⟨htbl, by rw [htbl], ?_⟩
  intro degrees entry_id output_path new_size s'' r' hrot
  obtain ⟨src, hdeg, hsrc, e, htbl2, hseq, _⟩ := rotate_image_eq_ok hrot
  refine ⟨e, by rw [htbl2, htbl], ?_, ?_⟩
  · rw [hseq, htbl, next_sequence_eq_maxSeq hne]
  · intro t ht hts hlt
    rw [hseq, htbl, next_sequence_eq_maxSeq hne]
    omega

/-- Witness for C4: restore `c1St` to sequence 1, then rotate; the new
record appends as sequence `maxSeq + 1 = 3`, not 2. -/
theorem C4_witness :
    ∃ e, c4Rot2.tbl = c1St.tbl ++ [e] ∧
      e.sequence = maxSeq c1St.tbl + 1 ∧
      (∀ target ∈ c1St.tbl, target.sequence = 1 → 1 < maxSeq c1St.tbl →
        e.sequence ≠ 1 + 1) :=
  (C4_restore_nondestructive
      (by decide :
        restore_to_sequence exEnv c1St 1 =
          (c1Restored, Except.ok ("a1.jpg", 900)))).2.2
    90 "h3" "d3.jpg" 600 c4Rot2 ("d3.jpg", 600, 100, 50)
    (by decide :
      rotate_image exEnv c1Restored 90 "h3" "d3.jpg" 600 =
        (c4Rot2, Except.ok ("d3.jpg", 600, 100, 50)))

/-- C6: a successful undo never deletes from disk a file that a remaining
history record still references as `input_path` or `output_path`, or that
equals the new current path: any such file that existed before the undo
still exists after it. -/
theorem C6_undo_no_orphan_deletion {env : Env} {s s' : St} {p : String} {n : Nat}
    (h : undo_operation env s = (s', .ok (p, n))) (q : String)
    (href : (∃ e ∈ s'.tbl, e.input_path = q ∨ e.output_path = q) ∨
      q = s'.image.current_path)
    (hex : (fsLookup s.fs q).isSome = true) :
    (fsLookup s'.fs q).isSome = true := by
  obtain ⟨cur, rs, rfi, hfind, hrev, hopen, himg, htbl, hfs, hn⟩ :=
    undo_operation_eq_ok h
  rw [hfs]
  unfold undoFsUpdate
  split
  · dsimp only
    split
    · rename_i hcond
      obtain ⟨hnouses, hnotcur⟩ := (Bool.and_eq_true _ _).mp hcond
      have hany : ((get_image_history s.tbl).any fun entry =>
          entry.id != cur.id &&
          (entry.input_path == cur.output_path ||
            entry.output_path == cur.output_path)) = false := by
        simpa using hnouses
      have hnotcur' : cur.output_path ≠ p := by simpa using hnotcur
      by_cases hq : q = cur.output_path
      · exfalso
        subst hq
        rcases href with ⟨e, he, hio⟩ | hq'
        · rw [htbl] at he
          obtain ⟨he1, he2⟩ := List.mem_filter.mp he
          have hpred := List.any_eq_false.mp hany e (mem_get_image_history.mpr he1)
          apply hpred
          rw [Bool.and_eq_true]
          refine ⟨he2, ?_⟩
          rcases hio with hio | hio <;> simp [hio]
        · have hcp : s'.image.current_path = p := by rw [himg]
          exact hnotcur' (hq'.trans hcp)
      · rw [fsLookup_remove_ne s.fs (fun hc => hq hc.symm)]
        exact hex
    · exact hex
  · exact hex

/-- Witness for C6: undoing `c1St` reverts to `a1.jpg`, which is both the
remaining record's `output_path` and the new current path; the file
survives. -/
theorem C6_witness : (fsLookup c6Undone.fs "a1.jpg").isSome = true :=
  C6_undo_no_orphan_deletion
    (by decide :
      undo_operation exEnv c1St = (c6Undone, Except.ok ("a1.jpg", 1)))
    "a1.jpg" (Or.inl ⟨c1E1, by decide, Or.inr (by decide)⟩) (by decide)

/-- C8 (counterexample): undoing the single operation of `c8St` (a format
conversion) reverts the path, but the image's `format` field still reads
`"WEBP"` although the new current artefact `orig2.png` is a PNG — the
format field is *not* replaced. -/
theorem C8_counterexample :
    undo_operation exEnv c8St = (c8Undone, .ok ("orig2.png", 0)) ∧
    c8Undone.image.current_path = "orig2.png" ∧
    fsLookup c8Undone.fs "orig2.png" = some c8Fi0 ∧
    c8Fi0.format = "PNG" ∧
    c8Undone.image.format = "WEBP" := by
  decide

/-- C8 (amended): every successful undo replaces four of the five
current-state fields — path, size, width and height — but leaves `format`
unchanged, so after an undo the format field may still describe the
artefact that was just undone.  The new `current_size` is the revert
target's size: the image's immutable `original_size` when the matched
record has sequence 1, and the predecessor record's `file_size`
otherwise. -/
theorem C8_undo_replaces_four_fields {env : Env} {s s' : St} {p : String}
    {n : Nat} (h : undo_operation env s = (s', .ok (p, n))) :
    s'.image.format = s.image.format ∧
    s'.image.current_path = p ∧
    (∃ rfi, fsLookup s.fs p = some rfi ∧
      s'.image.width = rfi.width ∧ s'.image.height = rfi.height) ∧
    ∃ cur, (get_image_history s.tbl).find?
        (fun entry => entry.output_path == s.image.current_path) = some cur ∧
      undoRevert s (get_image_history s.tbl) cur = .ok (p, s'.image.current_size) ∧
      (cur.sequence = 1 → s'.image.current_size = s.image.original_size) ∧
      (cur.sequence ≠ 1 → ∃ prev,
        (get_image_history s.tbl).find?
          (fun entry => entry.sequence == cur.sequence - 1) = some prev ∧
        s'.image.current_size = prev.file_size) := by
  obtain ⟨cur, rs, rfi, hfind, hrev, hopen, himg, htbl, hfs, hn⟩ :=
    undo_operation_eq_ok h
  have hcs : s'.image.current_size = rs := by rw [himg]
  refine ⟨by rw [himg], by rw [himg], ⟨rfi, hopen, by rw [himg], by rw [himg]⟩,
    cur, hfind, by rw [hcs]; exact hrev, ?_, ?_⟩
  · intro h1
    unfold undoRevert at hrev
    rw [if_pos h1] at hrev
    cases hh : (get_image_history s.tbl).head? with
    | none =>
      rw [hh] at hrev
      exact absurd hrev (by simp)
    | some first =>
      rw [hh] at hrev
      have hpair := Except.ok.inj hrev
      rw [Prod.mk.injEq] at hpair
      rw [hcs, ← hpair.2]
  · intro h1
    unfold undoRevert at hrev
    rw [if_neg h1] at hrev
    cases hh : (get_image_history s.tbl).find?
        (fun entry => entry.sequence == cur.sequence - 1) with
    | none =>
      rw [hh] at hrev
      exact absurd hrev (by simp)
    | some prev =>
      rw [hh] at hrev
      have hpair := Except.ok.inj hrev
      rw [Prod.mk.injEq] at hpair
      exact ⟨prev, rfl, by rw [hcs, ← hpair.2]⟩

/-- Witness for C8's amended theorem at the `c8St` run: the matched record
has sequence 1, so the size is replaced by the original size 1200. -/
theorem C8_witness :
    c8Undone.image.format = c8St.image.format ∧
    c8Undone.image.current_path = "orig2.png" ∧
    (∃ rfi, fsLookup c8St.fs "orig2.png" = some rfi ∧
      c8Undone.image.width = rfi.width ∧ c8Undone.image.height = rfi.height) ∧
    ∃ cur, (get_image_history c8St.tbl).find?
        (fun entry => entry.output_path == c8St.image.current_path) = some cur ∧
      undoRevert c8St (get_image_history c8St.tbl) cur =
        .ok ("orig2.png", c8Undone.image.current_size) ∧
      (cur.sequence = 1 →
        c8Undone.image.current_size = c8St.image.original_size) ∧
      (cur.sequence ≠ 1 → ∃ prev,
        (get_image_history c8St.tbl).find?
          (fun entry => entry.sequence == cur.sequence - 1) = some prev ∧
        c8Undone.image.current_size = prev.file_size) :=
  C8_undo_replaces_four_fields
    (by decide :
      undo_operation exEnv c8St = (c8Undone, Except.ok ("orig2.png", 0)))

/-- C9: `restore_to_sequence` fails with a not-found error (the no-history
or sequence-not-found `ValueError`) when no record has the target
sequence, fails with the history-file-missing error when the target
record's output file is not on disk, and in every failure case returns the
image state unchanged — all checks precede the state update. -/
theorem C9_restore_error_cases (env : Env) (s : St) (q : Nat) :
    ((∀ e ∈ s.tbl, e.sequence ≠ q) →
      ∃ err, restore_to_sequence env s q = (s, .error err) ∧
        (err = .noHistory ∨ err = .seqNotFound)) ∧
    (∀ target, target ∈ s.tbl → target.sequence = q →
      (s.tbl.map History.sequence).Nodup →
      fsLookup s.fs target.output_path = none →
      restore_to_sequence env s q = (s, .error .fileMissing)) ∧
    (∀ s' err, restore_to_sequence env s q = (s', .error err) → s' = s) := by
  refine ⟨?_, ?_, fun s' err h => restore_eq_error h⟩
  · intro hno
    by_cases hempty : (get_image_history s.tbl).isEmpty = true
    · exact ⟨.noHistory, by simp [restore_to_sequence, hempty], Or.inl rfl⟩
    · have hfind : (get_image_history s.tbl).find?
          (fun entry => entry.sequence == q) = none := by
        rw [List.find?_eq_none]
        intro x hx
        simpa using hno x (mem_get_image_history.mp hx)
      refine ⟨.seqNotFound, ?_, Or.inr rfl⟩
      rw [Bool.not_eq_true] at hempty
      simp [restore_to_sequence, hempty, hfind]
  · intro target hmem hseq hnd hmiss
    have hempty : (get_image_history s.tbl).isEmpty = false :=
      get_image_history_isEmpty_eq_false (fun h0 => by rw [h0] at hmem; cases hmem)
    have hnd' : ((get_image_history s.tbl).map History.sequence).Nodup :=
      (((get_image_history_perm s.tbl).map History.sequence).nodup_iff).mpr hnd
    have hfind := find_eq_of_map_nodup History.sequence (get_image_history s.tbl)
      target (mem_get_image_history.mpr hmem) hnd'
    rw [hseq] at hfind
    simp [restore_to_sequence, hempty, hfind, hmiss]

/-- Witness for C9: restoring `c1St` to the absent sequence 5 fails with a
not-found error and leaves the state unchanged. -/
theorem C9_witness :
    ∃ err, restore_to_sequence exEnv c1St 5 = (c1St, .error err) ∧
      (err = .noHistory ∨ err = .seqNotFound) :=
  (C9_restore_error_cases exEnv c1St 5).1 (by decide)

/-- C5 (counterexample): with cap 1 on `c1Restored` (current =
record 1's output, record 2's `input_path` references it), the trimmer
removes record 1 — whose `output_path` *is* the image's `current_path` —
and deletes its artefact file although the remaining record still
references that file as its `input_path`. -/
theorem C5_counterexample :
    c1Restored.image.current_path = c1E1.output_path ∧
    c1E2.input_path = c1E1.output_path ∧
    c1E2 ∈ (cleanup_old_history cap1Env c1Restored).tbl ∧
    (fsLookup c1Restored.fs c1E1.output_path).isSome = true ∧
    (cleanup_old_history cap1Env c1Restored).tbl = [c1E2] ∧
    fsLookup (cleanup_old_history cap1Env c1Restored).fs c1E1.output_path = none := by
  decide

/-- C5 (amended): whenever the history exceeds a positive cap, the trimmer
removes exactly the oldest `length - cap` records and deletes each removed
record's artefact file *unconditionally* — even if another record still
references it and even if it is the record whose `output_path` is the
image's `current_path`; the image row itself is never touched. -/
theorem C5_cleanup_trims_unconditionally (env : Env) (s : St)
    (hcap : 1 ≤ env.undoLimit)
    (hlen : env.undoLimit < (get_image_history s.tbl).length) :
    trimmedRecords env s ≠ [] ∧
    (∀ e ∈ trimmedRecords env s,
      fsLookup (cleanup_old_history env s).fs e.output_path = none) ∧
    (∀ row, row ∈ (cleanup_old_history env s).tbl ↔
      (row ∈ s.tbl ∧ ∀ e ∈ trimmedRecords env s, row.id ≠ e.id)) ∧
    (cleanup_old_history env s).image = s.image := by
  have hguard : ¬ ((get_image_history s.tbl).length ≤ env.undoLimit) :=
    Nat.not_le.mpr hlen
  have hz : ¬ (env.undoLimit = 0) := by omega
  have hcleanup : cleanup_old_history env s = (trimmedRecords env s).foldl cleanupStep s := by
    unfold cleanup_old_history trimmedRecords
    rw [if_neg hguard, if_neg hz]
  refine ⟨?_, ?_, ?_, ?_⟩
  · unfold trimmedRecords
    intro h0
    have hl := congrArg List.length h0
    rw [List.length_take] at hl
    simp only [List.length_nil] at hl
    omega
  · intro e he
    rw [hcleanup]
    exact cleanupFold_fs_removed _ s e he
  · intro row
    rw [hcleanup, cleanupFold_tbl_mem]
  · rw [hcleanup]
    exact cleanupFold_image _ s

/-- Witness for C5's amended theorem on the `c1Restored` trim. -/
theorem C5_witness :
    (∀ e ∈ trimmedRecords cap1Env c1Restored,
      fsLookup (cleanup_old_history cap1Env c1Restored).fs e.output_path = none) ∧
    (cleanup_old_history cap1Env c1Restored).image = c1Restored.image :=
  ⟨(C5_cleanup_trims_unconditionally cap1Env c1Restored (by decide) (by decide)).2.1,
   (C5_cleanup_trims_unconditionally cap1Env c1Restored (by decide) (by decide)).2.2.2⟩

/-- C2: when the image's `current_path` equals the tail record's
`output_path` (with distinct artefact paths), undo matches the tail; if
the tail's sequence is 1 the new current state is the first record's
`input_path` with size `original_size`, otherwise it is the
`output_path`/`file_size` of the record with sequence `tail.sequence - 1`;
width and height are read from the target file itself, and undo returns
the new current path paired with `tail.sequence - 1`. -/
theorem C2_undo_from_tail (env : Env) (s : St) (tl : History)
    (houts : (s.tbl.map History.output_path).Nodup)
    (htail : (get_image_history s.tbl).getLast? = some tl)
    (hcur : s.image.current_path = tl.output_path) :
    (tl.sequence = 1 →
      ∀ first fi, (get_image_history s.tbl).head? = some first →
        fsLookup s.fs first.input_path = some fi →
        ∃ s', undo_operation env s = (s', .ok (first.input_path, tl.sequence - 1)) ∧
          s'.image.current_path = first.input_path ∧
          s'.image.current_size = s.image.original_size ∧
          s'.image.width = fi.width ∧ s'.image.height = fi.height) ∧
    (tl.sequence ≠ 1 →
      (s.tbl.map History.sequence).Nodup →
      ∀ prev fi, prev ∈ s.tbl → prev.sequence = tl.sequence - 1 →
        fsLookup s.fs prev.output_path = some fi →
        ∃ s', undo_operation env s = (s', .ok (prev.output_path, tl.sequence - 1)) ∧
          s'.image.current_path = prev.output_path ∧
          s'.image.current_size = prev.file_size ∧
          s'.image.width = fi.width ∧ s'.image.height = fi.height) := by
  have htlmem : tl ∈ get_image_history s.tbl := mem_of_getLast?_eq_some htail
  have houts' : ((get_image_history s.tbl).map History.output_path).Nodup :=
    (((get_image_history_perm s.tbl).map History.output_path).nodup_iff).mpr houts
  have hfind : (get_image_history s.tbl).find?
      (fun entry => entry.output_path == s.image.current_path) = some tl := by
    have := find_eq_of_map_nodup History.output_path (get_image_history s.tbl)
      tl htlmem houts'
    rw [← hcur] at this
    exact this
  constructor
  · intro h1 first fi hhead hopen
    have hrev : undoRevert s (get_image_history s.tbl) tl =
        .ok (first.input_path, s.image.original_size) := by
      unfold undoRevert
      rw [if_pos h1, hhead]
    exact ⟨_, undo_operation_ok env s tl first.input_path s.image.original_size fi
      hfind hrev hopen, rfl, rfl, rfl, rfl⟩
  · intro h1 hseqs prev fi hprevmem hprevseq hopen
    have hseqs' : ((get_image_history s.tbl).map History.sequence).Nodup :=
      (((get_image_history_perm s.tbl).map History.sequence).nodup_iff).mpr hseqs
    have hprevfind : (get_image_history s.tbl).find?
        (fun entry => entry.sequence == tl.sequence - 1) = some prev := by
      have := find_eq_of_map_nodup History.sequence (get_image_history s.tbl)
        prev (mem_get_image_history.mpr hprevmem) hseqs'
      rw [hprevseq] at this
      exact this
    have hrev : undoRevert s (get_image_history s.tbl) tl =
        .ok (prev.output_path, prev.file_size) := by
      unfold undoRevert
      rw [if_neg h1, hprevfind]
    exact ⟨_, undo_operation_ok env s tl prev.output_path prev.file_size fi
      hfind hrev hopen, rfl, rfl, rfl, rfl⟩

/-- Witness for C2 on `c1St`: current equals the tail (sequence 2), so
undo reverts to record 1's output with its recorded size and the on-disk
dimensions, returning sequence 1. -/
theorem C2_witness :
    ∃ s', undo_operation exEnv c1St = (s', .ok ("a1.jpg", 1)) ∧
      s'.image.current_path = "a1.jpg" ∧
      s'.image.current_size = 900 ∧
      s'.image.width = c1FiA.width ∧ s'.image.height = c1FiA.height :=
  (C2_undo_from_tail exEnv c1St c1E2 (by decide) (by decide) (by decide)).2
    (by decide) (by decide) c1E1 c1FiA (by decide) (by decide) (by decide)

/-- C10: when the image's `current_path` equals the `output_path` of a
*non-tail* record `e` of a contiguous log (the state left by a restore to
an earlier sequence), `undo_operation` succeeds: it matches that record,
reverts to its predecessor state (or to the original artefact when its
sequence is 1), deletes that mid-log record while every higher-sequence
record stays in the log, and the sequences are no longer contiguous. -/
theorem C10_undo_after_restore (env : Env) (s : St) (e : History) (n : Nat)
    (hmap : (get_image_history s.tbl).map History.sequence = List.range' 1 n)
    (houts : (s.tbl.map History.output_path).Nodup)
    (hids : (s.tbl.map History.id).Nodup)
    (he : e ∈ s.tbl)
    (hcur : s.image.current_path = e.output_path)
    (hlt : e.sequence < n) :
    (e.sequence ≠ 1 →
      ∀ prev fi, prev ∈ s.tbl → prev.sequence = e.sequence - 1 →
        fsLookup s.fs prev.output_path = some fi →
        ∃ s', undo_operation env s = (s', .ok (prev.output_path, e.sequence - 1)) ∧
          s'.image.current_path = prev.output_path ∧
          s'.image.current_size = prev.file_size ∧
          e ∉ s'.tbl ∧
          (∀ r ∈ s.tbl, e.sequence < r.sequence → r ∈ s'.tbl) ∧
          ¬ contiguous s'.tbl) ∧
    (e.sequence = 1 →
      ∀ first fi, (get_image_history s.tbl).head? = some first →
        fsLookup s.fs first.input_path = some fi →
        ∃ s', undo_operation env s = (s', .ok (first.input_path, 0)) ∧
          s'.image.current_path = first.input_path ∧
          s'.image.current_size = s.image.original_size ∧
          e ∉ s'.tbl ∧
          (∀ r ∈ s.tbl, e.sequence < r.sequence → r ∈ s'.tbl) ∧
          ¬ contiguous s'.tbl) := by
  have hseqs : (s.tbl.map History.sequence).Nodup := by
    have h1 : ((get_image_history s.tbl).map History.sequence).Nodup := by
      rw [hmap]
      exact List.nodup_range' _ _
    exact (((get_image_history_perm s.tbl).map History.sequence).nodup_iff).mp h1
  have houts' : ((get_image_history s.tbl).map History.output_path).Nodup :=
    (((get_image_history_perm s.tbl).map History.output_path).nodup_iff).mpr houts
  have hfind : (get_image_history s.tbl).find?
      (fun entry => entry.output_path == s.image.current_path) = some e := by
    have := find_eq_of_map_nodup History.output_path (get_image_history s.tbl)
      e (mem_get_image_history.mpr he) houts'
    rw [← hcur] at this
    exact this
  have hnotmem : e ∉ s.tbl.filter (fun row => row.id != e.id) := by
    intro hmem
    exact ((mem_filter_ne_id hids he e).mp hmem).2 rfl
  have hkeep : ∀ r ∈ s.tbl, e.sequence < r.sequence →
      r ∈ s.tbl.filter (fun row => row.id != e.id) := by
    intro r hr hrs
    refine (mem_filter_ne_id hids he r).mpr ⟨hr, ?_⟩
    intro hre
    rw [hre] at hrs
    omega
  have hnc : ¬ contiguous (s.tbl.filter (fun row => row.id != e.id)) :=
    not_contiguous_after_midlog_delete hmap hids hseqs he hlt
  constructor
  · intro h1 prev fi hprevmem hprevseq hopen
    have hseqs' : ((get_image_history s.tbl).map History.sequence).Nodup :=
      (((get_image_history_perm s.tbl).map History.sequence).nodup_iff).mpr hseqs
    have hprevfind : (get_image_history s.tbl).find?
        (fun entry => entry.sequence == e.sequence - 1) = some prev := by
      have := find_eq_of_map_nodup History.sequence (get_image_history s.tbl)
        prev (mem_get_image_history.mpr hprevmem) hseqs'
      rw [hprevseq] at this
      exact this
    have hrev : undoRevert s (get_image_history s.tbl) e =
        .ok (prev.output_path, prev.file_size) := by
      unfold undoRevert
      rw [if_neg h1, hprevfind]
    exact ⟨_, undo_operation_ok env s e prev.output_path prev.file_size fi
      hfind hrev hopen, rfl, rfl, hnotmem, hkeep, hnc⟩
  · intro h1 first fi hhead hopen
    have hrev : undoRevert s (get_image_history s.tbl) e =
        .ok (first.input_path, s.image.original_size) := by
      unfold undoRevert
      rw [if_pos h1, hhead]
    have hundo := undo_operation_ok env s e first.input_path
      s.image.original_size fi hfind hrev hopen
    rw [h1] at hundo
    exact ⟨_, hundo, rfl, rfl, hnotmem, hkeep, hnc⟩

theorem runRotates_seq_range (env : Env) :
    ∀ (ops : List RotParams) (k : Nat) (s s' : St),
      (get_image_history s.tbl).map History.sequence = List.range' 1 k →
      runRotates env ops s = some s' →
      (get_image_history s'.tbl).map History.sequence =
        List.range' 1 (k + ops.length) := by
  intro ops
  induction ops with
  | nil =>
    intro k s s' hmap hrun
    simp only [runRotates] at hrun
    have hss := Option.some.inj hrun
    subst hss
    simpa using hmap
  | cons op rest ih =>
    intro k s s' hmap hrun
    simp only [runRotates] at hrun
    cases hrot : rotate_image env s op.degrees op.entry_id op.output_path op.new_size with
    | mk s1 res =>
      rw [hrot] at hrun
      cases res with
      | error err => simp at hrun
      | ok r =>
        simp only at hrun
        obtain ⟨src, hdeg, hsrc, e, htbl, hseq, hrest⟩ := rotate_image_eq_ok hrot
        have hmaxperm : maxSeq (get_image_history s.tbl) = maxSeq s.tbl :=
          maxSeq_perm (get_image_history_perm s.tbl)
        have hnext : e.sequence = k + 1 := by
          rw [hseq]
          by_cases hk : s.tbl = []
          · have hmap' := hmap
            rw [hk] at hmap'
            have hk0 : k = 0 := by
              cases k with
              | zero => rfl
              | succ k' => simp [get_image_history, List.range'] at hmap'
            rw [hk, hk0]
            rfl
          · rw [next_sequence_eq_maxSeq hk]
            have hle : maxSeq s.tbl ≤ k := by
              rw [← hmaxperm]
              apply maxSeq_le
              intro x hx
              have hxm : x.sequence ∈ List.range' 1 k := by
                rw [← hmap]
                exact List.mem_map_of_mem History.sequence hx
              have := List.mem_range'_1.mp hxm
              omega
            have hk1 : k ≠ 0 := by
              intro h0
              rw [h0] at hmap
              have h1 : List.map History.sequence (get_image_history s.tbl) = [] := by
                simpa using hmap
              exact hk (get_image_history_eq_nil_iff.mp (List.map_eq_nil_iff.mp h1))
            have hge : k ≤ maxSeq s.tbl := by
              have hkmem : k ∈ List.range' 1 k :=
                List.mem_range'_1.mpr ⟨by omega, by omega⟩
              rw [← hmap] at hkmem
              obtain ⟨x, hxmem, hxseq⟩ := List.mem_map.mp hkmem
              calc k = x.sequence := hxseq.symm
                _ ≤ maxSeq (get_image_history s.tbl) := le_maxSeq hxmem
                _ = maxSeq s.tbl := hmaxperm
            omega
        have hall : ∀ x ∈ s.tbl, x.sequence ≤ e.sequence := by
          intro x hx
          have hxm : x.sequence ∈ List.range' 1 k := by
            rw [← hmap]
            exact List.mem_map_of_mem History.sequence (mem_get_image_history.mpr hx)
          have := List.mem_range'_1.mp hxm
          omega
        have hconc : List.range' 1 (k + 1) = List.range' 1 k ++ [k + 1] := by
          have h := @List.range'_concat 1 1 k
          simpa [Nat.add_comm] using h
        have hmap1 : (get_image_history s1.tbl).map History.sequence =
            List.range' 1 (k + 1) := by
          rw [htbl, get_image_history_append_max _ _ hall, List.map_append, hmap]
          simp only [List.map_cons, List.map_nil]
          rw [hnext, hconc]
        have hfin := ih (k + 1) s1 s' hmap1 hrun
        have hlen : k + (op :: rest).length = k + 1 + rest.length := by
          simp only [List.length_cons]
          omega
        rw [hlen]
        exact hfin

/-- C7: `_get_next_sequence` assigns `max(existing sequences) + 1`, or 1
when no records exist; consequently after N successful forward operations
starting from an empty history, `get_image_history` returns exactly N
records carrying sequences 1..N in ascending order. -/
theorem C7_sequence_contiguity :
    (∀ tbl : List History,
      next_sequence tbl = if tbl = [] then 1 else maxSeq tbl + 1) ∧
    (∀ (env : Env) (ops : List RotParams) (s0 s : St),
      s0.tbl = [] → runRotates env ops s0 = some s →
      (get_image_history s.tbl).map History.sequence =
        List.range' 1 ops.length ∧
      (get_image_history s.tbl).length = ops.length) := by
  constructor
  · intro tbl
    by_cases h : tbl = []
    · rw [if_pos h, h]
      rfl
    · rw [if_neg h]
      exact next_sequence_eq_maxSeq h
  · intro env ops s0 s h0 hrun
    have hmap0 : (get_image_history s0.tbl).map History.sequence =
        List.range' 1 0 := by
      rw [h0]
      rfl
    have hmap := runRotates_seq_range env ops 0 s0 s hmap0 hrun
    rw [Nat.zero_add] at hmap
    refine ⟨hmap, ?_⟩
    have hlen := congrArg List.length hmap
    simpa using hlen

/-- Witness for C7: two rotations on a fresh image leave a 2-record log
with sequences `[1, 2]`. -/
theorem C7_witness :
    (get_image_history c7St.tbl).map History.sequence = List.range' 1 2 ∧
    (get_image_history c7St.tbl).length = 2 :=
  C7_sequence_contiguity.2 exEnv c7Ops c7S0 c7St rfl (by decide)

/-- Witness for C10 on `c1Restored`: current equals record 1's output
(non-tail of a 2-record contiguous log); the undo reverts to the original
artefact, deletes record 1, keeps record 2, and the log is no longer
contiguous. -/
theorem C10_witness :
    ∃ s', undo_operation exEnv c1Restored = (s', .ok ("orig.jpg", 0)) ∧
      s'.image.current_path = "orig.jpg" ∧
      s'.image.current_size = c1Restored.image.original_size ∧
      c1E1 ∉ s'.tbl ∧
      (∀ r ∈ c1Restored.tbl, c1E1.sequence < r.sequence → r ∈ s'.tbl) ∧
      ¬ contiguous s'.tbl :=
  (C10_undo_after_restore exEnv c1Restored c1E1 2 (by decide) (by decide)
      (by decide) (by decide) (by decide) (by decide)).2
    (by decide) c1E1 c1Fi0 (by decide) (by decide)

/-- C3: undo is a left inverse of a forward operation: starting from an
image with empty history (its file on disk matching its recorded size and
dimensions), one successful rotation followed by undo restores the exact
pre-operation current path, size, width and height, leaves
`get_image_history` empty and `can_undo` false; after three successful
rotations, two undos leave the current state at the first operation's
output with its recorded size, and exactly one record (sequence 1) in the
log. -/
theorem C3_undo_reverses_forward (env : Env) (s0 s1 s2 s3 : St) (fi0 : FileInfo)
    (d1 d2 d3 : Nat) (id1 id2 id3 out1 out2 out3 : String) (sz1 sz2 sz3 : Nat)
    (r1 r2 r3 : String × Nat × Nat × Nat)
    (htbl0 : s0.tbl = [])
    (hfs : fsLookup s0.fs s0.image.current_path = some fi0)
    (hw : fi0.width = s0.image.width)
    (hh : fi0.height = s0.image.height)
    (hsz : s0.image.current_size = s0.image.original_size)
    (ho1 : out1 ≠ s0.image.current_path)
    (ho21 : out2 ≠ out1) (ho31 : out3 ≠ out1) (ho32 : out3 ≠ out2)
    (hi12 : id1 ≠ id2) (hi13 : id1 ≠ id3) (hi23 : id2 ≠ id3)
    (hrot1 : rotate_image env s0 d1 id1 out1 sz1 = (s1, .ok r1))
    (hrot2 : rotate_image env s1 d2 id2 out2 sz2 = (s2, .ok r2))
    (hrot3 : rotate_image env s2 d3 id3 out3 sz3 = (s3, .ok r3)) :
    ((undo_operation env s1).2 = .ok (s0.image.current_path, 0) ∧
     (undo_operation env s1).1.image.current_path = s0.image.current_path ∧
     (undo_operation env s1).1.image.current_size = s0.image.current_size ∧
     (undo_operation env s1).1.image.width = s0.image.width ∧
     (undo_operation env s1).1.image.height = s0.image.height ∧
     get_image_history (undo_operation env s1).1.tbl = [] ∧
     can_undo (undo_operation env s1).1 = false) ∧
    ((undo_operation env s3).2 = .ok (out2, 2) ∧
     (undo_operation env (undo_operation env s3).1).2 = .ok (out1, 1) ∧
     (undo_operation env (undo_operation env s3).1).1.image.current_path = out1 ∧
     (undo_operation env (undo_operation env s3).1).1.image.current_size = sz1 ∧
     ∃ e, get_image_history (undo_operation env (undo_operation env s3).1).1.tbl = [e] ∧
       e.sequence = 1 ∧ e.output_path = out1) := by
  obtain ⟨f1, hdeg1, hsrc1, e1, htbl1, hseq1, hid1, hin1, hout1, hfsz1, hcp1,
    hcs1, hfmt1, horig1, hfs1⟩ := rotate_image_eq_ok hrot1
  obtain ⟨f2, hdeg2, hsrc2, e2, htbl2, hseq2, hid2, hin2, hout2, hfsz2, hcp2,
    hcs2, hfmt2, horig2, hfs2⟩ := rotate_image_eq_ok hrot2
  obtain ⟨f3, hdeg3, hsrc3, e3, htbl3, hseq3, hid3, hin3, hout3, hfsz3, hcp3,
    hcs3, hfmt3, horig3, hfs3⟩ := rotate_image_eq_ok hrot3
  have htbl1' : s1.tbl = [e1] := by rw [htbl1, htbl0]; rfl
  have hseq1' : e1.sequence = 1 := by rw [hseq1, htbl0]; rfl
  have htbl2' : s2.tbl = [e1, e2] := by rw [htbl2, htbl1']; rfl
  have hseq2' : e2.sequence = 2 := by
    rw [hseq2, htbl1', next_sequence_singleton, hseq1']
  have htbl3' : s3.tbl = [e1, e2, e3] := by rw [htbl3, htbl2']; rfl
  have hseq3' : e3.sequence = 3 := by
    rw [hseq3, htbl2', next_sequence_pair_lt (by omega), hseq2']
  -- Part 1: undo after the first operation
  have hfindP1 : (get_image_history s1.tbl).find?
      (fun entry => entry.output_path == s1.image.current_path) = some e1 := by
    rw [htbl1', get_image_history_singleton]
    have hb : (e1.output_path == s1.image.current_path) = true := by
      rw [hout1, hcp1]
      simp
    simp [List.find?, hb]
  have hrevP1 : undoRevert s1 (get_image_history s1.tbl) e1 =
      .ok (e1.input_path, s1.image.original_size) := by
    unfold undoRevert
    rw [if_pos hseq1', htbl1', get_image_history_singleton]
    rfl
  have hopenP1 : fsLookup s1.fs e1.input_path = some fi0 := by
    rw [hin1, hfs1, fsLookup_set_ne _ _ ho1]
    exact hfs
  have hundoP1 := undo_operation_ok env s1 e1 e1.input_path
    s1.image.original_size fi0 hfindP1 hrevP1 hopenP1
  have hU1tbl : (undo_operation env s1).1.tbl = [] := by
    rw [hundoP1]
    dsimp only
    rw [htbl1']
    simp
  refine ⟨⟨?_, ?_, ?_, ?_, ?_, ?_, ?_⟩, ?_⟩
  · rw [hundoP1, hin1, hseq1']
  · rw [hundoP1]
    dsimp only
    exact hin1
  · rw [hundoP1]
    dsimp only
    rw [horig1, hsz]
  · rw [hundoP1]
    dsimp only
    exact hw
  · rw [hundoP1]
    dsimp only
    exact hh
  · rw [hU1tbl]
    rfl
  · exact can_undo_of_tbl_nil hU1tbl
  -- Part 2: three operations, two undos
  have hb1 : (e1.output_path == s3.image.current_path) = false := by
    rw [hout1, hcp3]
    exact beq_eq_false_iff_ne.mpr (Ne.symm ho31)
  have hb2 : (e2.output_path == s3.image.current_path) = false := by
    rw [hout2, hcp3]
    exact beq_eq_false_iff_ne.mpr (Ne.symm ho32)
  have hb3 : (e3.output_path == s3.image.current_path) = true := by
    rw [hout3, hcp3]
    simp
  have hg3 : get_image_history [e1, e2, e3] = [e1, e2, e3] := by
    apply List.Sorted.insertionSort_eq
    simp [List.sorted_cons, seqLE]
    omega
  have hfindA : (get_image_history s3.tbl).find?
      (fun entry => entry.output_path == s3.image.current_path) = some e3 := by
    rw [htbl3', hg3]
    simp [List.find?, hb1, hb2, hb3]
  have hrevA : undoRevert s3 (get_image_history s3.tbl) e3 =
      .ok (e2.output_path, e2.file_size) := by
    unfold undoRevert
    rw [if_neg (by omega : ¬ e3.sequence = 1), htbl3', hg3]
    have hc1 : (e1.sequence == e3.sequence - 1) = false := by
      rw [hseq1', hseq3']
      decide
    have hc2 : (e2.sequence == e3.sequence - 1) = true := by
      rw [hseq2', hseq3']
      decide
    simp [List.find?, hc1, hc2]
  have hopenA : fsLookup s3.fs e2.output_path = some
      { width := s2.image.width, height := s2.image.height,
        format := f2.format, size := sz2 } := by
    rw [hout2, hfs3, fsLookup_set_ne _ _ ho32, hfs2]
    exact fsLookup_set_self _ _ _
  have hundoA := undo_operation_ok env s3 e3 e2.output_path e2.file_size
    { width := s2.image.width, height := s2.image.height,
      format := f2.format, size := sz2 } hfindA hrevA hopenA
  have hV1tbl : (undo_operation env s3).1.tbl = [e1, e2] := by
    rw [hundoA]
    dsimp only
    rw [htbl3']
    have hk1 : (e1.id != e3.id) = true := by
      rw [hid1, hid3]
      simpa using hi13
    have hk2 : (e2.id != e3.id) = true := by
      rw [hid2, hid3]
      simpa using hi23
    simp [List.filter, hk1, hk2]
  have hV1cp : (undo_operation env s3).1.image.current_path = out2 := by
    rw [hundoA]
    dsimp only
    exact hout2
  have hg2 : get_image_history [e1, e2] = [e1, e2] := by
    apply List.Sorted.insertionSort_eq
    simp [List.sorted_cons, seqLE]
    omega
  have hfindB : (get_image_history (undo_operation env s3).1.tbl).find?
      (fun entry => entry.output_path ==
        (undo_operation env s3).1.image.current_path) = some e2 := by
    rw [hV1tbl, hg2]
    have hd1 : (e1.output_path == (undo_operation env s3).1.image.current_path) = false := by
      rw [hout1, hV1cp]
      exact beq_eq_false_iff_ne.mpr (Ne.symm ho21)
    have hd2 : (e2.output_path == (undo_operation env s3).1.image.current_path) = true := by
      rw [hout2, hV1cp]
      simp
    simp [List.find?, hd1, hd2]
  have hrevB : undoRevert (undo_operation env s3).1
      (get_image_history (undo_operation env s3).1.tbl) e2 =
      .ok (e1.output_path, e1.file_size) := by
    unfold undoRevert
    rw [if_neg (by omega : ¬ e2.sequence = 1), hV1tbl, hg2]
    have hc1 : (e1.sequence == e2.sequence - 1) = true := by
      rw [hseq1', hseq2']
      decide
    simp [List.find?, hc1]
  have hopenB : fsLookup (undo_operation env s3).1.fs e1.output_path = some
      { width := s1.image.width, height := s1.image.height,
        format := f1.format, size := sz1 } := by
    rw [hundoA]
    dsimp only
    rw [undoFsUpdate_lookup_ne _ _ _ _ (by rw [hout3, hout1]; exact ho31)]
    rw [hout1, hfs3, fsLookup_set_ne _ _ ho31, hfs2, fsLookup_set_ne _ _ ho21, hfs1]
    exact fsLookup_set_self _ _ _
  have hundoB := undo_operation_ok env (undo_operation env s3).1 e2
    e1.output_path e1.file_size
    { width := s1.image.width, height := s1.image.height,
      format := f1.format, size := sz1 } hfindB hrevB hopenB
  have hV2tbl : (undo_operation env (undo_operation env s3).1).1.tbl = [e1] := by
    rw [hundoB]
    dsimp only
    rw [hV1tbl]
    have hk1 : (e1.id != e2.id) = true := by
      rw [hid1, hid2]
      simpa using hi12
    simp [List.filter, hk1]
  refine ⟨?_, ?_, ?_, ?_, ?_⟩
  · rw [hundoA, hout2, hseq3']
  · rw [hundoB, hout1, hseq2']
  · rw [hundoB]
    dsimp only
    exact hout1
  · rw [hundoB]
    dsimp only
    exact hfsz1
  · exact ⟨e1, by rw [hV2tbl]; rfl, hseq1', hout1⟩

/-- Witness for C3: the concrete three-rotation chain on `c7S0`. -/
theorem C3_witness :
    ((undo_operation exEnv c3S1).2 = .ok ("u0.png", 0) ∧
     (undo_operation exEnv c3S1).1.image.current_path = "u0.png" ∧
     (undo_operation exEnv c3S1).1.image.current_size = 500 ∧
     (undo_operation exEnv c3S1).1.image.width = 20 ∧
     (undo_operation exEnv c3S1).1.image.height = 10 ∧
     get_image_history (undo_operation exEnv c3S1).1.tbl = [] ∧
     can_undo (undo_operation exEnv c3S1).1 = false) ∧
    ((undo_operation exEnv c3S3).2 = .ok ("v2.png", 2) ∧
     (undo_operation exEnv (undo_operation exEnv c3S3).1).2 = .ok ("v1.png", 1) ∧
     (undo_operation exEnv (undo_operation exEnv c3S3).1).1.image.current_path = "v1.png" ∧
     (undo_operation exEnv (undo_operation exEnv c3S3).1).1.image.current_size = 450 ∧
     ∃ e, get_image_history
        (undo_operation exEnv (undo_operation exEnv c3S3).1).1.tbl = [e] ∧
       e.sequence = 1 ∧ e.output_path = "v1.png") :=
  C3_undo_reverses_forward exEnv c7S0 c3S1 c3S2 c3S3 c3Fi0 90 90 180
    "m1" "m2" "m3" "v1.png" "v2.png" "v3.png" 450 420 410
    ("v1.png", 450, 10, 20) ("v2.png", 420, 20, 10) ("v3.png", 410, 20, 10)
    rfl (by decide) (by decide) (by decide) (by decide) (by decide)
    (by decide) (by decide) (by decide) (by decide) (by decide) (by decide)
    (by decide) (by decide) (by decide)

end ImageTools
